import Mathlib

/-!
Verification of the stock-report pipeline (src/gemini.py) against its
natural-language specification.

The script is shallowly embedded below.  Python strings become Lean
`String`s (ASCII-level semantics for character classes), the branching
conversation export becomes explicit structures, the filesystem becomes an
association list from file path to parsed document, and the external
Gemini call becomes an explicit oracle `String → CallOutcome`.  Fallible
code (the `msg["author"]["role"]` lookup that can raise `KeyError`)
returns `Except`.
-/

namespace StockReport

/-! ## Python string primitives

Models of the Python string operations the script uses: `str.strip`,
`str.endswith`, `str.replace`, decimal formatting with zero padding, and
the regex searches.  All are executable structural recursions over
`List Char`.
-/

/-- Python whitespace class for `str.strip` and regex `\s` (ASCII part). -/
def isPyWS (c : Char) : Bool :=
  c = ' ' || c = '\t' || c = '\n' || c = '\r' || c = '\x0b' || c = '\x0c'

/-- `str.strip()` on a character list: drop whitespace at both ends. -/
def trimList (l : List Char) : List Char :=
  ((l.dropWhile isPyWS).reverse.dropWhile isPyWS).reverse

/-- `str.strip()`. -/
def trimL (s : String) : String :=
  ⟨trimList s.data⟩

/-- `str.endswith(suffix)`. -/
def endsWithL (s suffix : String) : Bool :=
  suffix.data.isSuffixOf s.data

/-- The decimal digit character for `k % 10`. -/
def digitCharM (k : Nat) : Char :=
  Char.ofNat (48 + k % 10)

/-- Decimal digits of `n`, most significant first (fueled, fuel `n+1` is
always enough because `n / 10 < n` for `n ≥ 10`). -/
def natDigits : Nat → Nat → List Char
  | 0, _ => []
  | fuel + 1, n =>
    if n < 10 then [digitCharM n] else natDigits fuel (n / 10) ++ [digitCharM n]

/-- Decimal rendering of a natural number (Python `str(n)` / `"%d"`). -/
def natToStr (n : Nat) : String :=
  ⟨natDigits (n + 1) n⟩

/-- Python `f"{n:02d}"`. -/
def pad2 (n : Nat) : String :=
  if n < 10 then "0" ++ natToStr n else natToStr n

/-- Python `f"{n:04d}"`. -/
def pad4 (n : Nat) : String :=
  if n < 10 then "000" ++ natToStr n
  else if n < 100 then "00" ++ natToStr n
  else if n < 1000 then "0" ++ natToStr n
  else natToStr n

/-- The canonical key built by `extract_date_from_text`:
`f"{int(y):04d}-{int(m):02d}-{int(d):02d}"`. -/
def fmtDate (y m d : Nat) : String :=
  pad4 y ++ "-" ++ pad2 m ++ "-" ++ pad2 d

/-! ## The date regex `(20\d{2})[-SLASH](\d{1,2})[-SLASH](\d{1,2})` (SLASH standing for the forward-slash character)

`matchDateAt` matches the pattern anchored at the head of the character
list, with the regex engine's greedy-with-backtracking semantics for
`\d{1,2}` (try two digits, fall back to one if the rest fails).
`searchDate` is `re.search`: the leftmost position whose anchored match
succeeds wins. -/

/-- Numeric value of a digit character. -/
def digitVal (c : Char) : Nat :=
  c.toNat - 48

/-- Match the separator class (a hyphen or a forward slash) and return the rest. -/
def matchSep : List Char → Option (List Char)
  | c :: rest => if c = '-' || c = '/' then some rest else none
  | [] => none

/-- Greedy `\d{1,2}` with backtracking: feed the two-digit reading to the
continuation first; if it fails, retry with the one-digit reading. -/
def matchTwoOrOne (cs : List Char) (k : Nat → List Char → Option (Nat × Nat × Nat)) :
    Option (Nat × Nat × Nat) :=
  match cs with
  | c1 :: c2 :: rest =>
    if c1.isDigit then
      if c2.isDigit then
        match k (10 * digitVal c1 + digitVal c2) rest with
        | some r => some r
        | none => k (digitVal c1) (c2 :: rest)
      else k (digitVal c1) (c2 :: rest)
    else none
  | [c1] => if c1.isDigit then k (digitVal c1) [] else none
  | [] => none

/-- Anchored match of `(20\d{2})[-SLASH](\d{1,2})[-SLASH](\d{1,2})` (SLASH standing for the forward-slash character), returning the
numeric year, month and day values of the first (greedy) parse. -/
def matchDateAt : List Char → Option (Nat × Nat × Nat)
  | '2' :: '0' :: c1 :: c2 :: rest =>
    if c1.isDigit && c2.isDigit then
      let y := 2000 + 10 * digitVal c1 + digitVal c2
      match matchSep rest with
      | some r1 =>
        matchTwoOrOne r1 fun m r2 =>
          match matchSep r2 with
          | some r3 => matchTwoOrOne r3 fun d _ => some (y, m, d)
          | none => none
      | none => none
    else none
  | _ => none

/-- `re.search`: try the anchored match at each position, left to right. -/
def searchDate : List Char → Option (Nat × Nat × Nat)
  | [] => none
  | c :: rest =>
    match matchDateAt (c :: rest) with
    | some r => some r
    | none => searchDate rest

/-- `extract_date_from_text` (src/gemini.py:58-63). -/
def extract_date_from_text (text : String) : Option String :=
  match searchDate text.data with
  | some (y, m, d) => some (fmtDate y m d)
  | none => none

/-- Spec-side date pattern, following the spec's words for claim C9: a
*four-digit year* (any four digits, not just `20??`) separated by `-` or
`/` from a 1-2 digit month and day.  Used only to compare the spec's
reading with the source's `20\d{2}` year. -/
def specFourDigitMatchAt : List Char → Option (Nat × Nat × Nat)
  | c0 :: c1 :: c2 :: c3 :: rest =>
    if c0.isDigit && c1.isDigit && c2.isDigit && c3.isDigit then
      let y := 1000 * digitVal c0 + 100 * digitVal c1 + 10 * digitVal c2 + digitVal c3
      match matchSep rest with
      | some r1 =>
        matchTwoOrOne r1 fun m r2 =>
          match matchSep r2 with
          | some r3 => matchTwoOrOne r3 fun d _ => some (y, m, d)
          | none => none
      | none => none
    else none
  | _ => none

/-- Spec-side `re.search` for the four-digit-year pattern. -/
def specSearchFourDigit : List Char → Option (Nat × Nat × Nat)
  | [] => none
  | c :: rest =>
    match specFourDigitMatchAt (c :: rest) with
    | some r => some r
    | none => specSearchFourDigit rest

/-! ## Data model -/

/-- A reconstructed message: `{"role": role, "text": text}`. -/
structure Message where
  role : String
  text : String
deriving DecidableEq

/-- One content part of a raw export message: either a plain string or a
structured value object (`isinstance(text, dict)`), whose `"value"` field
may be absent. -/
inductive PartVal where
  | str (s : String)
  | obj (value : Option String)
deriving DecidableEq

/-- A raw export message.  `role = none` models a node whose
`msg["author"]["role"]` lookup would raise (missing or null author, or
author without a role).  `parts = none` models a missing `content` or
`parts` field (`msg.get("content", {}).get("parts")` returning `None`). -/
structure RawMessage where
  role : Option String
  parts : Option (List PartVal)
deriving DecidableEq

/-- A node of the thread `mapping`; `message = none` models a node whose
`message` field is absent or null (`if not msg: continue`). -/
structure RawNode where
  message : Option RawMessage
deriving DecidableEq

/-- One thread of the export: its `title` and the mapping's nodes in
native enumeration order. -/
structure Thread where
  title : String
  nodes : List RawNode
deriving DecidableEq

/-- A persisted per-topic document, abstracting the HTML file: the page
title and the ordered `(date, summary)` sections of its body, each
rendered as `<h2>date</h2>` followed by `<pre>summary</pre>`. -/
structure Doc where
  title : String
  sections : List (String × String)
deriving DecidableEq

/-- The section markup written by `main` (src/gemini.py:226):
`f"<h2>{date}</h2>\n<pre>{summary}</pre>"`. -/
def renderSection (sec : String × String) : String :=
  "<h2>" ++ sec.1 ++ "</h2>\n<pre>" ++ sec.2 ++ "</pre>"

/-! ## Conversation Reader (src/gemini.py:191-202)

`msg["author"]["role"]` is a direct subscript: a message object without an
accessible author role raises `KeyError` and aborts the run, which the
`Except` models.  Every other missing field is tolerated silently:
no message payload and no/empty `parts` skip the node, a dict part falls
back to its `"value"` field, defaulting to the empty string. -/

/-- Text of the first content part (`parts[0]`, with the
`isinstance(text, dict)` fallback `text.get("value", "")`). -/
def partText : PartVal → String
  | .str s => s
  | .obj v => v.getD ""

/-- Read one mapping node: `ok none` means skipped, `error` models the
`KeyError` raised by `msg["author"]["role"]`. -/
def readNode (node : RawNode) : Except Unit (Option Message) :=
  match node.message with
  | none => .ok none
  | some m =>
    match m.role with
    | none => .error ()
    | some r =>
      match m.parts with
      | none => .ok none
      | some [] => .ok none
      | some (p :: _) => .ok (some ⟨r, partText p⟩)

/-- The message-building loop over all mapping nodes. -/
def readMessages : List RawNode → Except Unit (List Message)
  | [] => .ok []
  | n :: rest =>
    match readNode n with
    | .error e => .error e
    | .ok none => readMessages rest
    | .ok (some m) =>
      match readMessages rest with
      | .error e => .error e
      | .ok ms => .ok (m :: ms)

/-! ## Date Segmenter (src/gemini.py:204-212) -/

/-- Cursor update for one message: only an assistant message with a date
match overwrites the current date. -/
def updateCursor (cur : Option String) (m : Message) : Option String :=
  if m.role = "assistant" then
    match extract_date_from_text m.text with
    | some d => some d
    | none => cur
  else cur

/-- `date_to_group[date].append(msg)` on an association list that keeps
one entry per date (insertion order) and appends within an entry. -/
def addToGroup : List (String × List Message) → String → Message → List (String × List Message)
  | [], d, m => [(d, [m])]
  | (k, l) :: rest, d, m =>
    if k = d then (k, l ++ [m]) :: rest else (k, l) :: addToGroup rest d m

/-- Lookup in the grouping association list. -/
def lookupGroup : List (String × List Message) → String → Option (List Message)
  | [], _ => none
  | (k, l) :: rest, d => if k = d then some l else lookupGroup rest d

/-- The segmenter loop: update the cursor, then append the message to the
current date's bucket when a current date is set. -/
def segmentAux (cur : Option String) (g : List (String × List Message)) :
    List Message → List (String × List Message)
  | [] => g
  | m :: rest =>
    match updateCursor cur m with
    | some d => segmentAux (some d) (addToGroup g d m) rest
    | none => segmentAux none g rest

/-- `date_to_group` built from the ordered message list. -/
def segmentMessages (msgs : List Message) : List (String × List Message) :=
  segmentAux none [] msgs

/-- Spec-side annotation: pair each message with the cursor value in force
when it is processed (the most recently detected date at or before it). -/
def cursorTrace (cur : Option String) : List Message → List (Option String × Message)
  | [] => []
  | m :: rest =>
    let cur' := updateCursor cur m
    (cur', m) :: cursorTrace cur' rest

/-- Spec-side bucket of a date: the messages whose in-force cursor is that
date, in sequence order. -/
def specBucket (msgs : List Message) (d : String) : List Message :=
  (cursorTrace none msgs).filterMap fun p => if p.1 = some d then some p.2 else none

/-! ## Segment Summarizer (src/gemini.py:65-103, 221-225) -/

/-- Outcome of one external Gemini call: a response whose
`candidates[0].content.parts[0].text` is present (`response some`), a
response lacking that shape (`response none`, raising `KeyError` or
`IndexError` inside the `try`), or an exception from `requests.post` or
`.json()` (network error, timeout, malformed body). -/
inductive CallOutcome where
  | response (candidateText : Option String)
  | exn
deriving DecidableEq

/-- Any outcome other than a well-shaped response counts as a failure. -/
def failedOutcome : CallOutcome → Bool
  | .response (some _) => false
  | _ => true

/-- The fixed instructional prompt wrapped around the transcript
(src/gemini.py:67-89). -/
def buildPrompt (text : String) : String :=
  "\n以下は株式銘柄に関する1日分の分析会話の記録です。\nこの内容をもとに、以下のフォーマットで要点を箇条書きで整理してください。\n\n---\n\n分析結果の要約（300字程度）：\n\n短期的目線の分析（150字程度）：\n\n中期的目線の分析（150字程度）：\n\n長期的目線の分析（150字程度）：\n\n最新の状況（40字程度）：\n\nいつ買うべきか（40字程度）：\n\n---\n\n【会話記録】\n" ++ text ++ "\n"

/-- The fixed failure sentinel returned when the call fails. -/
def failSentinel : String := "要約エラー"

/-- `summarize_with_gemini`: on a well-shaped response return the
stripped candidate text, on any failure return the sentinel. -/
def summarize_with_gemini (oracle : String → CallOutcome) (text : String) : String :=
  match oracle (buildPrompt text) with
  | .response (some t) => trimL t
  | .response none => failSentinel
  | .exn => failSentinel

/-- The transcript formatting (src/gemini.py:221-224): prefix `Q: ` for
user messages and `A: ` for every other role, joined by newlines. -/
def formatTranscript (msgs : List Message) : String :=
  String.intercalate "\n"
    (msgs.map fun m => (if m.role = "user" then "Q: " else "A: ") ++ m.text)

/-! ## Existing-Record Inspector and Document Merger
(src/gemini.py:51-56, 216-236) -/

/-- `extract_existing_dates`: the stripped `<h2>` texts of the persisted
document, or the empty set when the file does not exist. -/
def extract_existing_dates : Option Doc → List String
  | none => []
  | some d => d.sections.map fun sec => trimL sec.1

/-- The merger (src/gemini.py:228-236): append the new section to an
existing document's body, or create the document from the page shell with
this single section. -/
def mergeSection : Option Doc → String → String → String → Doc
  | none, title, date, summary => ⟨title, [(date, summary)]⟩
  | some d, _, date, summary => ⟨d.title, d.sections ++ [(date, summary)]⟩

/-- Insertion into a list sorted by date key (Python `sorted` over the
dict items; keys are unique, so only the key ordering matters). -/
def insertSorted (p : String × List Message) :
    List (String × List Message) → List (String × List Message)
  | [] => [p]
  | q :: rest => if p.1 < q.1 then p :: q :: rest else q :: insertSorted p rest

/-- `sorted(date_to_group.items())`. -/
def sortGroups (l : List (String × List Message)) : List (String × List Message) :=
  l.foldr insertSorted []

/-- The per-date loop of `main` (src/gemini.py:216-236): skip dates whose
key is already recorded, otherwise summarize the bucket's transcript and
merge the new section into the document. -/
def processDates (oracle : String → CallOutcome) (ex : List String) (title : String) :
    Option Doc → List (String × List Message) → Option Doc
  | doc, [] => doc
  | doc, (date, grp) :: rest =>
    if date ∈ ex then processDates oracle ex title doc rest
    else
      processDates oracle ex title
        (some (mergeSection doc title date
          (summarize_with_gemini oracle (formatTranscript grp)))) rest

/-- One topic's processing after the messages are read: inspect the
existing document, segment, sort the date buckets, and run the per-date
loop. -/
def processTopic (oracle : String → CallOutcome) (doc : Option Doc) (title : String)
    (msgs : List Message) : Option Doc :=
  processDates oracle (extract_existing_dates doc) title doc
    (sortGroups (segmentMessages msgs))

/-! ## The filesystem store and the per-thread / whole-pipeline run -/

/-- The fixed output directory. -/
def OUTPUT_DIR : String := "output"

/-- The topic filter suffix. -/
def FILTER_SUFFIX : String := "_米国株"

/-- `os.path.join(OUTPUT_DIR, f"{title}.html")` (src/gemini.py:188). -/
def docPath (title : String) : String :=
  OUTPUT_DIR ++ "/" ++ title ++ ".html"

/-- The output directory as an association list from file path to parsed
document. -/
def Store := List (String × Doc)

/-- File lookup (first match). -/
def lookupStore : List (String × Doc) → String → Option Doc
  | [], _ => none
  | (p, d) :: rest, q => if p = q then some d else lookupStore rest q

/-- File write: replace the entry at the path, or add it. -/
def updateStore : List (String × Doc) → String → Doc → List (String × Doc)
  | [], p, d => [(p, d)]
  | (q, e) :: rest, p, d =>
    if q = p then (q, d) :: rest else (q, e) :: updateStore rest p d

/-- One iteration of the thread loop of `main` (src/gemini.py:183-238):
strip and filter the title, read the messages (which may raise), process
the topic, and write the resulting document back.  When nothing was
appended the file is not rewritten. -/
def runThread (oracle : String → CallOutcome) (store : List (String × Doc))
    (th : Thread) : Except Unit (List (String × Doc)) :=
  let title := trimL th.title
  if endsWithL title FILTER_SUFFIX then
    match readMessages th.nodes with
    | .error e => .error e
    | .ok msgs =>
      match processTopic oracle (lookupStore store (docPath title)) title msgs with
      | none => .ok store
      | some d => .ok (updateStore store (docPath title) d)
  else .ok store

/-- The whole per-topic pipeline: the thread loop over the input JSON. -/
def runPipeline (oracle : String → CallOutcome) :
    List (String × Doc) → List Thread → Except Unit (List (String × Doc))
  | store, [] => .ok store
  | store, th :: rest =>
    match runThread oracle store th with
    | .error e => .error e
    | .ok s => runPipeline oracle s rest

/-! ## Index Builder (src/gemini.py:105-171)

`str.replace` for the index display title, the heading-shape regex of
`get_latest_update_date`, and the two label-line regexes of
`extract_summary_lines` with genuine lazy/greedy backtracking. -/

/-- Fueled scan for `str.replace(target, new)`: left-to-right,
non-overlapping; one unit of fuel per step, and at least one character is
consumed per step, so fuel equal to the length suffices. -/
def replaceFuel (target repl : List Char) : Nat → List Char → List Char
  | 0, s => s
  | _ + 1, [] => []
  | fuel + 1, c :: rest =>
    if target ≠ [] && target.isPrefixOf (c :: rest) then
      repl ++ replaceFuel target repl fuel (rest.drop (target.length - 1))
    else c :: replaceFuel target repl fuel rest

/-- Python `s.replace(target, repl)`. -/
def replaceL (s target repl : String) : String :=
  ⟨replaceFuel target.data repl.data s.data.length s.data⟩

/-- The index display title (src/gemini.py:148):
`f.stem.replace(FILTER_SUFFIX, "")`. -/
def displayTitle (stem : String) : String :=
  replaceL stem FILTER_SUFFIX ""

/-- Exact shape required by the regex `<h2>(\d{4}-\d{2}-\d{2})</h2>`:
the heading text is precisely four digits, a hyphen, two digits, a
hyphen, two digits. -/
def isDateShaped (s : String) : Bool :=
  match s.data with
  | [y1, y2, y3, y4, h1, m1, m2, h2, d1, d2] =>
    y1.isDigit && y2.isDigit && y3.isDigit && y4.isDigit && h1 = '-' &&
      m1.isDigit && m2.isDigit && h2 = '-' && d1.isDigit && d2.isDigit
  | _ => false

/-- All regex-shaped heading dates of all documents, in document order. -/
def allDatesIn : List Doc → List String
  | [] => []
  | d :: rest => (d.sections.map Prod.fst).filter isDateShaped ++ allDatesIn rest

/-- Keep the larger of an accumulator and a candidate
(`if newest > latest: latest = newest`, and Python `max` pairwise). -/
def strMaxAcc (a b : String) : String :=
  if a < b then b else a

/-- The file loop of `get_latest_update_date` (src/gemini.py:105-115):
per file take the maximum matched date, keep the global maximum. -/
def latestGo (latest : String) : List Doc → String
  | [] => latest
  | d :: rest =>
    let dates := (d.sections.map Prod.fst).filter isDateShaped
    if dates.isEmpty then latestGo latest rest
    else latestGo (strMaxAcc latest (dates.foldl strMaxAcc "")) rest

/-- `get_latest_update_date` over the parsed documents of the output
directory. -/
def get_latest_update_date (docs : List Doc) : String :=
  latestGo "" docs

/-! ### The label-line regexes of `extract_summary_lines`

Pattern (for a label `L`): `L`, an optional full-width or ASCII open
paren, a lazy run of non-newline characters, an optional close paren, an
optional full-width or ASCII colon, greedy `\s*`, a literal newline, and
a captured greedy run of at least one non-newline character. -/

/-- Alternatives for an optional single-character class (`[..]?`,
greedy: consuming the character is tried first). -/
def optCharAlts (set : List Char) : List Char → List (List Char)
  | [] => [[]]
  | c :: rest => if c ∈ set then [rest, c :: rest] else [c :: rest]

/-- Try a matcher on each alternative remainder in order. -/
def firstSome (alts : List (List Char)) (k : List Char → Option String) : Option String :=
  match alts with
  | [] => none
  | s :: rest =>
    match k s with
    | some r => some r
    | none => firstSome rest k

/-- Attempt the trailing `\n(.+)` with the literal newline at offset `j`:
the capture is the greedy non-newline run after it and must be nonempty. -/
def nlCaptureAt (s : List Char) (j : Nat) : Option String :=
  if s.get? j = some '\n' then
    let cap := (s.drop (j + 1)).takeWhile fun c => c ≠ '\n'
    if cap.isEmpty then none else some ⟨cap⟩
  else none

/-- Greedy `\s*\n(.+)` with backtracking: try the longest whitespace run
first, shrinking until the literal newline and nonempty capture fit. -/
def wsBacktrack (s : List Char) : Nat → Option String
  | 0 => nlCaptureAt s 0
  | j + 1 =>
    match nlCaptureAt s (j + 1) with
    | some r => some r
    | none => wsBacktrack s j

/-- `\s*\n(.+)` anchored at the head of `s`. -/
def wsNlCapture (s : List Char) : Option String :=
  wsBacktrack s (s.takeWhile isPyWS).length

/-- The part after the lazy run: optional close paren, optional colon,
then `\s*\n(.+)`. -/
def tailMatch (s : List Char) : Option String :=
  firstSome (optCharAlts [')', '）'] s) fun s1 =>
    firstSome (optCharAlts ['：', ':'] s1) fun s2 =>
      wsNlCapture s2

/-- The lazy `.*?` before the tail: try the tail at the current position
first, then consume one non-newline character and retry. -/
def lazyScan : List Char → Option String
  | [] => tailMatch []
  | c :: rest =>
    match tailMatch (c :: rest) with
    | some r => some r
    | none => if c = '\n' then none else lazyScan rest

/-- Anchored attempt of the whole label pattern. -/
def tryLabelAt (label : List Char) (s : List Char) : Option String :=
  if label.isPrefixOf s then
    firstSome (optCharAlts ['（', '('] (s.drop label.length)) lazyScan
  else none

/-- `re.search` for the label pattern: leftmost successful start wins. -/
def labelSearch (label : List Char) : List Char → Option String
  | [] => tryLabelAt label []
  | c :: rest =>
    match tryLabelAt label (c :: rest) with
    | some r => some r
    | none => labelSearch label rest

/-- The captured line after a label, if any. -/
def extractLabelLine (label text : String) : Option String :=
  labelSearch label.data text.data

/-- The fixed placeholder for a missing or unextractable status line. -/
def notRecorded : String := "記載なし"

/-- State of one file of the output directory as the index builder sees
it: parsed into a document, or failing to open/parse (the `except` path of
`extract_summary_lines`). -/
inductive FileState where
  | parsed (d : Doc)
  | unparsable
deriving DecidableEq

/-- `extract_summary_lines` (src/gemini.py:119-142): placeholders when
the file cannot be parsed or has no `<h2>`; otherwise search the last
section's `<pre>` text for the two label lines.  (In the document model
every `<h2>` is paired with its `<pre>`, so the `if not pre` branch of
the source cannot fire.) -/
def extract_summary_lines : FileState → String × String
  | .unparsable => (notRecorded, notRecorded)
  | .parsed d =>
    match d.sections.getLast? with
    | none => (notRecorded, notRecorded)
    | some sec =>
      (((extractLabelLine "最新の状況" sec.2).map trimL).getD notRecorded,
       ((extractLabelLine "いつ買うべきか" sec.2).map trimL).getD notRecorded)

/-- One file of the output directory: its stem (name without `.html`)
and its parse state. -/
structure IndexFile where
  stem : String
  state : FileState
deriving DecidableEq

/-- `f.name`. -/
def fileName (f : IndexFile) : String := f.stem ++ ".html"

/-- The `<li>` entry built for one file (src/gemini.py:148-151). -/
def entryFor (f : IndexFile) : String :=
  "<li><a href=\"output/" ++ fileName f ++ "\">" ++ displayTitle f.stem ++
    "</a><br>最新の状況：" ++ (extract_summary_lines f.state).1 ++
    "<br>いつ買うべきか：" ++ (extract_summary_lines f.state).2 ++ "</li>"

/-- Insertion into the file list sorted by file name
(`sorted(Path(OUTPUT_DIR).glob("*.html"))`). -/
def insertFile (f : IndexFile) : List IndexFile → List IndexFile
  | [] => [f]
  | g :: rest => if fileName f < fileName g then f :: g :: rest else g :: insertFile f rest

/-- The sorted file list. -/
def sortFiles (files : List IndexFile) : List IndexFile :=
  files.foldr insertFile []

/-- The index list: one entry per file of the output directory, in sorted
order; a file that fails to parse still yields an entry (with the
placeholder strings). -/
def indexEntries (files : List IndexFile) : List String :=
  (sortFiles files).map entryFor

/-- Follows the spec's words for claim C5: strip the filter suffix from
the end of the title. -/
def specStripSuffix (t suffix : String) : String :=
  if suffix.data.isSuffixOf t.data then ⟨t.data.take (t.data.length - suffix.data.length)⟩
  else t

/-- Follows the spec's words for claim C5: the persisted file named by the
*suffix-stripped* topic title under the output directory. -/
def specDocPath (title : String) : String :=
  OUTPUT_DIR ++ "/" ++ specStripSuffix title FILTER_SUFFIX ++ ".html"

/-! # Theorems -/

/-! ## C10: no calendar-validity check in `extract_date_from_text` -/

/-- C10: whatever year/month/day values the regex search finds are
formatted and returned verbatim, with no range check on month or day. -/
theorem claim_c10 (text : String) (y m d : Nat)
    (h : searchDate text.data = some (y, m, d)) :
    extract_date_from_text text = some (fmtDate y m d) := by
  unfold extract_date_from_text
  rw [h]

/-- Witness for C10 at the concrete input "2024-13-45": month 13 and day
45 are out of calendar range, yet the extractor returns the zero-padded
key "2024-13-45". -/
theorem claim_c10_witness :
    searchDate "2024-13-45".data = some (2024, 13, 45)
    ∧ extract_date_from_text "2024-13-45" = some (fmtDate 2024 13 45)
    ∧ fmtDate 2024 13 45 = "2024-13-45" ∧ 12 < 13 ∧ 31 < 45 :=
  ⟨by decide, claim_c10 "2024-13-45" 2024 13 45 (by decide), by decide, by decide, by decide⟩

/-! ## C9: date detection and cursor overwrite -/

/-- `re.search` returns the leftmost anchored match. -/
lemma searchDate_of_first : ∀ (cs : List Char) (i : Nat) (r : Nat × Nat × Nat),
    matchDateAt (cs.drop i) = some r →
    (∀ j, j < i → matchDateAt (cs.drop j) = none) →
    searchDate cs = some r
  | [], i, r, h1, _ => by
    rw [List.drop_nil] at h1
    exact absurd h1 (by simp [matchDateAt])
  | c :: rest, 0, r, h1, _ => by
    rw [List.drop_zero] at h1
    unfold searchDate
    rw [h1]
  | c :: rest, i + 1, r, h1, h2 => by
    have h0 : matchDateAt (c :: rest) = none := by
      have := h2 0 (Nat.succ_pos i)
      rwa [List.drop_zero] at this
    unfold searchDate
    rw [h0]
    exact searchDate_of_first rest i r
      (by rwa [List.drop_succ_cons] at h1)
      (fun j hj => by
        have := h2 (j + 1) (Nat.succ_lt_succ hj)
        rwa [List.drop_succ_cons] at this)

/-- C9 (amended: the year of the pattern is restricted to `20` followed
by two digits, not an arbitrary four-digit year): for an assistant
message whose text's *first* date-pattern match is at position `i`, the
extractor returns the zero-padded canonical key of that match and the
segmenter sets it as the current cursor, overwriting any prior value. -/
theorem claim_c9 (cur : Option String) (text : String) (i y m d : Nat)
    (h1 : matchDateAt (text.data.drop i) = some (y, m, d))
    (h2 : ∀ j, j < i → matchDateAt (text.data.drop j) = none) :
    extract_date_from_text text = some (fmtDate y m d)
    ∧ updateCursor cur ⟨"assistant", text⟩ = some (fmtDate y m d) := by
  have hs : searchDate text.data = some (y, m, d) := searchDate_of_first _ i _ h1 h2
  have he : extract_date_from_text text = some (fmtDate y m d) := by
    unfold extract_date_from_text
    rw [hs]
  exact ⟨he, by simp [updateCursor, he]⟩

/-- Witness for C9 (amended) at text "x 2024-3-7" with match position 2
and a prior cursor value that gets overwritten. -/
theorem claim_c9_witness :
    extract_date_from_text "x 2024-3-7" = some (fmtDate 2024 3 7)
    ∧ updateCursor (some "1111-11-11") ⟨"assistant", "x 2024-3-7"⟩ = some (fmtDate 2024 3 7)
    ∧ fmtDate 2024 3 7 = "2024-03-07" :=
  ⟨(claim_c9 (some "1111-11-11") "x 2024-3-7" 2 2024 3 7 (by decide) (by decide)).1,
   (claim_c9 (some "1111-11-11") "x 2024-3-7" 2 2024 3 7 (by decide) (by decide)).2,
   by decide⟩

/-- Counterexample for C9 as stated: "1999-01-02" contains a date pattern
with a four-digit year in the spec's sense, yet the extractor (whose
regex year is `20` plus two digits) finds nothing and the cursor keeps
its prior value instead of being overwritten. -/
theorem claim_c9_counterexample :
    specSearchFourDigit "1999-01-02".data = some (1999, 1, 2)
    ∧ extract_date_from_text "1999-01-02" = none
    ∧ updateCursor (some "2020-05-06") ⟨"assistant", "1999-01-02"⟩ = some "2020-05-06" := by
  decide

/-! ## C2: the merger preserves existing sections -/

/-- C2: appending a section to an existing document keeps the title,
keeps every previously recorded section byte-for-byte in its original
position and order, and adds exactly the new section at the end of the
body. -/
theorem claim_c2 (d0 : Doc) (title date summary : String) :
    (mergeSection (some d0) title date summary).title = d0.title
    ∧ (mergeSection (some d0) title date summary).sections.take d0.sections.length
        = d0.sections
    ∧ (mergeSection (some d0) title date summary).sections.drop d0.sections.length
        = [(date, summary)]
    ∧ (mergeSection (some d0) title date summary).sections.map renderSection
        = d0.sections.map renderSection ++ [renderSection (date, summary)] := by
  refine ⟨rfl, ?_, ?_, ?_⟩
  · simp [mergeSection, List.take_left]
  · simp [mergeSection, List.drop_left]
  · simp [mergeSection]

/-! ## C6: the Conversation Reader on malformed nodes -/

/-- Counterexample for C6 as stated: a node that has a message payload
and content parts but no accessible author role makes the reader raise
(`KeyError` from `msg["author"]["role"]`), aborting the run. -/
theorem claim_c6_counterexample :
    readMessages [⟨some ⟨none, some [PartVal.str "hello"]⟩⟩] = .error () := rfl

/-- C6 (amended: of the malformed shapes, a missing message payload,
missing/empty content parts and a dict part without a value are tolerated
silently, but a message without an accessible author role raises): the
first three shapes are skipped (or treated as empty text) without error,
the last aborts the reader. -/
theorem claim_c6 (nodes : List RawNode) (r : String) (parts : Option (List PartVal))
    (rest : List PartVal) :
    readMessages (⟨none⟩ :: nodes) = readMessages nodes
    ∧ readMessages (⟨some ⟨some r, none⟩⟩ :: nodes) = readMessages nodes
    ∧ readMessages (⟨some ⟨some r, some []⟩⟩ :: nodes) = readMessages nodes
    ∧ readMessages (⟨some ⟨some r, some (PartVal.obj none :: rest)⟩⟩ :: nodes)
        = (readMessages nodes).map (fun ms => Message.mk r "" :: ms)
    ∧ readMessages (⟨some ⟨none, parts⟩⟩ :: nodes) = .error () := by
  refine ⟨rfl, rfl, rfl, ?_, rfl⟩
  have hstep : readMessages (⟨some ⟨some r, some (PartVal.obj none :: rest)⟩⟩ :: nodes)
      = match readMessages nodes with
        | .error e => .error e
        | .ok ms => .ok (Message.mk r "" :: ms) := rfl
  rw [hstep]
  cases h : readMessages nodes <;> simp [Except.map]

/-! ## Store lemmas -/

lemma lookupStore_updateStore_self (s : List (String × Doc)) (p : String) (d : Doc) :
    lookupStore (updateStore s p d) p = some d := by
  induction s with
  | nil => simp [updateStore, lookupStore]
  | cons e rest ih =>
    obtain ⟨q, e⟩ := e
    by_cases h : q = p
    · simp [updateStore, lookupStore, h]
    · simp [updateStore, lookupStore, h, ih]

lemma lookupStore_updateStore_other (s : List (String × Doc)) (p q : String) (d : Doc)
    (h : q ≠ p) : lookupStore (updateStore s p d) q = lookupStore s q := by
  induction s with
  | nil =>
    have hpq : p ≠ q := Ne.symm h
    simp [updateStore, lookupStore, hpq]
  | cons e rest ih =>
    obtain ⟨x, ex⟩ := e
    by_cases hx : x = p
    · have hxq : x ≠ q := by rw [hx]; exact Ne.symm h
      simp only [updateStore, if_pos hx]
      simp [lookupStore, hxq]
    · simp only [updateStore, if_neg hx]
      by_cases hq : x = q <;> simp [lookupStore, hq, ih]

lemma updateStore_same (s : List (String × Doc)) (p : String) (d : Doc)
    (h : lookupStore s p = some d) : updateStore s p d = s := by
  induction s with
  | nil => simp [lookupStore] at h
  | cons e rest ih =>
    obtain ⟨x, ex⟩ := e
    by_cases hx : x = p
    · have hex : ex = d := Option.some.inj (by simpa [lookupStore, hx] using h)
      subst hex
      simp [updateStore, hx]
    · simp only [lookupStore, if_neg hx] at h
      simp [updateStore, hx, ih h]

/-! ## C5: persisted file naming -/

/-- Counterexample for C5 as stated: the in-scope topic "Foo_米国株" is
persisted at "output/Foo_米国株.html" (full title, suffix retained), not
at the suffix-stripped "output/Foo.html" that the claim names. -/
theorem claim_c5_counterexample :
    endsWithL "Foo_米国株" FILTER_SUFFIX = true
    ∧ specDocPath "Foo_米国株" = "output/Foo.html"
    ∧ docPath "Foo_米国株" = "output/Foo_米国株.html"
    ∧ docPath "Foo_米国株" ≠ specDocPath "Foo_米国株" := by
  decide

/-- C5 (amended: the file name keeps the *full* topic title, suffix
included; the suffix-stripped form is used only as display text in the
index): a thread whose trimmed title is in scope touches no store path
other than `output/TITLE.html` for the full title. -/
theorem claim_c5 (oracle : String → CallOutcome) (store : List (String × Doc))
    (th : Thread) (s : List (String × Doc)) (p : String)
    (hscope : endsWithL (trimL th.title) FILTER_SUFFIX = true)
    (hrun : runThread oracle store th = .ok s)
    (hp : p ≠ docPath (trimL th.title)) :
    lookupStore s p = lookupStore store p
    ∧ docPath (trimL th.title) = OUTPUT_DIR ++ "/" ++ trimL th.title ++ ".html"
    ∧ displayTitle (trimL th.title) = replaceL (trimL th.title) FILTER_SUFFIX "" := by
  refine ⟨?_, rfl, rfl⟩
  simp only [runThread, hscope, if_true] at hrun
  cases hr : readMessages th.nodes with
  | error e => rw [hr] at hrun; exact absurd hrun (by simp)
  | ok msgs =>
    rw [hr] at hrun
    have hrun' : (match processTopic oracle (lookupStore store (docPath (trimL th.title)))
          (trimL th.title) msgs with
        | none => Except.ok store
        | some d => Except.ok (updateStore store (docPath (trimL th.title)) d))
        = Except.ok s := hrun
    cases hpt : processTopic oracle (lookupStore store (docPath (trimL th.title)))
        (trimL th.title) msgs with
    | none =>
      rw [hpt] at hrun'
      simp only [Except.ok.injEq] at hrun'
      rw [← hrun']
    | some d =>
      rw [hpt] at hrun'
      simp only [Except.ok.injEq] at hrun'
      rw [← hrun']
      exact lookupStore_updateStore_other store (docPath (trimL th.title)) p d hp

/-- Witness for C5 (amended) on a concrete in-scope thread with empty
nodes, an empty store and an unrelated path. -/
theorem claim_c5_witness :
    lookupStore ([] : List (String × Doc)) "other" = lookupStore [] "other"
    ∧ docPath (trimL "Foo_米国株") = OUTPUT_DIR ++ "/" ++ trimL "Foo_米国株" ++ ".html"
    ∧ displayTitle (trimL "Foo_米国株") = replaceL (trimL "Foo_米国株") FILTER_SUFFIX "" :=
  claim_c5 (fun _ => CallOutcome.exn) [] ⟨"Foo_米国株", []⟩ [] "other"
    (by decide) (by rfl) (by decide)

/-! ## C7: index entries for unparsable documents -/

lemma insertFile_length (f : IndexFile) (l : List IndexFile) :
    (insertFile f l).length = l.length + 1 := by
  induction l with
  | nil => rfl
  | cons g rest ih =>
    by_cases h : fileName f < fileName g <;> simp [insertFile, h, ih]

lemma sortFiles_length (l : List IndexFile) : (sortFiles l).length = l.length := by
  induction l with
  | nil => rfl
  | cons f rest ih =>
    show (insertFile f (sortFiles rest)).length = rest.length + 1
    rw [insertFile_length, ih]

/-- Counterexample for C7 as stated: a directory holding one unparsable
document still produces exactly one index entry for it (with placeholder
status and timing lines), not zero entries. -/
theorem claim_c7_counterexample :
    indexEntries [⟨"A_米国株", FileState.unparsable⟩]
      = ["<li><a href=\"output/A_米国株.html\">A</a><br>最新の状況：記載なし<br>いつ買うべきか：記載なし</li>"]
    ∧ (indexEntries [⟨"A_米国株", FileState.unparsable⟩]).length = 1 := by
  constructor
  · rfl
  · rfl

/-- C7 (amended: a document that fails to parse is *not* dropped from the
listing — it still yields an entry, with the fixed placeholder status and
timing strings; index generation completes with exactly one entry per
file): the entry count always equals the file count, and an unparsable
file's entry carries the placeholders. -/
theorem claim_c7 :
    (∀ files : List IndexFile, (indexEntries files).length = files.length)
    ∧ (∀ stem : String,
        extract_summary_lines FileState.unparsable = (notRecorded, notRecorded)
        ∧ entryFor ⟨stem, FileState.unparsable⟩
            = "<li><a href=\"output/" ++ stem ++ ".html\">" ++ displayTitle stem ++
              "</a><br>最新の状況：記載なし<br>いつ買うべきか：記載なし</li>") := by
  constructor
  · intro files
    simp [indexEntries, sortFiles_length]
  · intro stem
    refine ⟨rfl, ?_⟩
    simp [entryFor, extract_summary_lines, fileName, notRecorded, String.append_assoc]

/-! ## C4: summarization failure degrades to the sentinel -/

/-- C4: when the external call fails in any way on a date's transcript
(exception, timeout, or a response without the expected candidate text),
the summarizer returns the fixed sentinel instead of raising, the merged
section body for that date is exactly the sentinel, and the per-date loop
continues with the remaining dates. -/
theorem claim_c4 (oracle : String → CallOutcome) (ex : List String) (title : String)
    (doc : Option Doc) (date : String) (grp : List Message)
    (rest : List (String × List Message))
    (hdate : date ∉ ex)
    (hfail : failedOutcome (oracle (buildPrompt (formatTranscript grp))) = true) :
    summarize_with_gemini oracle (formatTranscript grp) = failSentinel
    ∧ processDates oracle ex title doc ((date, grp) :: rest)
        = processDates oracle ex title (some (mergeSection doc title date failSentinel)) rest := by
  have hsum : summarize_with_gemini oracle (formatTranscript grp) = failSentinel := by
    unfold summarize_with_gemini
    cases ho : oracle (buildPrompt (formatTranscript grp)) with
    | response t =>
      cases t with
      | some tt => rw [ho] at hfail; simp [failedOutcome] at hfail
      | none => rfl
    | exn => rfl
  refine ⟨hsum, ?_⟩
  show (if date ∈ ex then processDates oracle ex title doc rest
    else processDates oracle ex title
      (some (mergeSection doc title date
        (summarize_with_gemini oracle (formatTranscript grp)))) rest) = _
  rw [if_neg hdate, hsum]

/-- Witness for C4: a concrete always-failing oracle, one pending date
and an empty existing-date set. -/
theorem claim_c4_witness :
    summarize_with_gemini (fun _ => CallOutcome.exn) (formatTranscript [⟨"user", "hi"⟩])
      = failSentinel
    ∧ processDates (fun _ => CallOutcome.exn) [] "T" none
        [("2024-01-05", [⟨"user", "hi"⟩])]
      = processDates (fun _ => CallOutcome.exn) [] "T"
          (some (mergeSection none "T" "2024-01-05" failSentinel)) [] :=
  claim_c4 (fun _ => CallOutcome.exn) [] "T" none "2024-01-05" [⟨"user", "hi"⟩] []
    (by simp) (by rfl)

/-! ## C3: the segmenter's bucket assignment -/

/-- Spec-side bucket with an arbitrary starting cursor (generalization of
`specBucket` for the induction). -/
def bucketFrom (cur : Option String) (msgs : List Message) (d : String) : List Message :=
  (cursorTrace cur msgs).filterMap fun p => if p.1 = some d then some p.2 else none

/-- How a bucket lookup combines with further appends. -/
def combineOpt (o : Option (List Message)) (b : List Message) : Option (List Message) :=
  match o with
  | none => if b = [] then none else some b
  | some l => some (l ++ b)

lemma lookupGroup_addToGroup (g : List (String × List Message)) (k : String) (m : Message)
    (d : String) :
    lookupGroup (addToGroup g k m) d
      = if d = k then some ((lookupGroup g k).getD [] ++ [m]) else lookupGroup g d := by
  induction g with
  | nil =>
    by_cases h : d = k
    · subst h; simp [addToGroup, lookupGroup]
    · simp only [addToGroup, lookupGroup, if_neg h]
      rw [if_neg (fun hh : k = d => h hh.symm)]
  | cons e rest ih =>
    obtain ⟨x, l⟩ := e
    by_cases hx : x = k
    · subst hx
      simp only [addToGroup, if_pos rfl]
      by_cases hd : d = x
      · subst hd; simp [lookupGroup]
      · have hxd : ¬ x = d := fun hh => hd hh.symm
        simp [lookupGroup, hxd, hd]
    · simp only [addToGroup, if_neg hx]
      by_cases hd : x = d
      · subst hd
        simp [lookupGroup, hx]
      · simp [lookupGroup, hd, hx, ih]

/-- Full characterization of the segmenter loop against the cursor-based
specification, generalized over the starting cursor and grouping. -/
lemma segmentAux_lookup : ∀ (msgs : List Message) (cur : Option String)
    (g : List (String × List Message)) (d : String),
    lookupGroup (segmentAux cur g msgs) d
      = combineOpt (lookupGroup g d) (bucketFrom cur msgs d)
  | [], cur, g, d => by
    cases hlg : lookupGroup g d <;>
      simp [segmentAux, bucketFrom, cursorTrace, combineOpt, hlg]
  | m :: rest, cur, g, d => by
    cases hc : updateCursor cur m with
    | none =>
      have hstep : segmentAux cur g (m :: rest) = segmentAux none g rest := by
        conv_lhs => rw [segmentAux]
        rw [hc]
      rw [hstep, segmentAux_lookup rest none g d]
      have hbk : bucketFrom cur (m :: rest) d = bucketFrom none rest d := by
        simp [bucketFrom, cursorTrace, hc, List.filterMap_cons]
      rw [hbk]
    | some k =>
      have hstep : segmentAux cur g (m :: rest)
          = segmentAux (some k) (addToGroup g k m) rest := by
        conv_lhs => rw [segmentAux]
        rw [hc]
      rw [hstep, segmentAux_lookup rest (some k) (addToGroup g k m) d,
        lookupGroup_addToGroup]
      by_cases hdk : d = k
      · subst hdk
        have hbk : bucketFrom cur (m :: rest) d = m :: bucketFrom (some d) rest d := by
          simp [bucketFrom, cursorTrace, hc, List.filterMap_cons]
        rw [hbk]
        cases hlg : lookupGroup g d <;> simp [combineOpt]
      · have hkd : ¬ k = d := fun hh => hdk hh.symm
        have hbk : bucketFrom cur (m :: rest) d = bucketFrom (some k) rest d := by
          simp [bucketFrom, cursorTrace, hc, List.filterMap_cons, hkd]
        rw [hbk, if_neg hdk]

/-- C3: a date's bucket in `date_to_group` is exactly the cursor-based
specification bucket — every message is assigned to the most recently
detected date among assistant messages at or before it (including the
assistant message that introduced the date and including user messages),
messages before the first detected date land in no bucket, and a date is
a key exactly when its bucket is nonempty. -/
theorem claim_c3 (msgs : List Message) (d : String) :
    lookupGroup (segmentMessages msgs) d
      = if specBucket msgs d = [] then none else some (specBucket msgs d) := by
  have h := segmentAux_lookup msgs none [] d
  have hb : bucketFrom none msgs d = specBucket msgs d := rfl
  rw [hb] at h
  simpa [segmentMessages, lookupGroup, combineOpt] using h

/-! ## C8: the index "last updated" date -/

lemma str_not_lt_empty (a : String) : ¬ a < "" := by
  intro h
  rw [String.lt_iff_toList_lt] at h
  exact List.nil_le.not_lt h

lemma le_strMaxAcc_left (a b : String) : a ≤ strMaxAcc a b := by
  unfold strMaxAcc
  split
  · exact le_of_lt (by assumption)
  · exact le_refl a

lemma le_strMaxAcc_right (a b : String) : b ≤ strMaxAcc a b := by
  unfold strMaxAcc
  split
  · exact le_refl b
  · exact le_of_not_lt (by assumption)

lemma strMaxAcc_eq_or (a b : String) : strMaxAcc a b = a ∨ strMaxAcc a b = b := by
  unfold strMaxAcc
  split
  · exact .inr rfl
  · exact .inl rfl

lemma strMaxAcc_empty (a : String) : strMaxAcc a "" = a := by
  unfold strMaxAcc
  rw [if_neg (str_not_lt_empty a)]

lemma foldl_strMaxAcc_spec (l : List String) : ∀ a : String,
    a ≤ l.foldl strMaxAcc a
    ∧ (∀ s ∈ l, s ≤ l.foldl strMaxAcc a)
    ∧ (l.foldl strMaxAcc a = a ∨ l.foldl strMaxAcc a ∈ l) := by
  induction l with
  | nil => intro a; exact ⟨le_refl a, by simp, .inl rfl⟩
  | cons b t ih =>
    intro a
    simp only [List.foldl_cons]
    obtain ⟨h1, h2, h3⟩ := ih (strMaxAcc a b)
    refine ⟨le_trans (le_strMaxAcc_left a b) h1, ?_, ?_⟩
    · intro s hs
      rcases List.mem_cons.1 hs with hsb | hst
      · subst hsb
        exact le_trans (le_strMaxAcc_right a s) h1
      · exact h2 s hst
    · rcases h3 with h | h
      · rcases strMaxAcc_eq_or a b with hab | hab
        · exact .inl (h.trans hab)
        · exact .inr (by rw [h, hab]; exact List.mem_cons_self b t)
      · exact .inr (List.mem_cons_of_mem b h)

lemma allDatesIn_cons (d : Doc) (rest : List Doc) :
    allDatesIn (d :: rest)
      = (d.sections.map Prod.fst).filter isDateShaped ++ allDatesIn rest := rfl

lemma allDatesIn_shaped (docs : List Doc) : ∀ s ∈ allDatesIn docs, isDateShaped s = true := by
  induction docs with
  | nil => simp [allDatesIn]
  | cons d rest ih =>
    intro s hs
    rcases List.mem_append.1 hs with h | h
    · exact (List.mem_filter.1 h).2
    · exact ih s h

lemma latestGo_spec (docs : List Doc) : ∀ a : String,
    a ≤ latestGo a docs
    ∧ (∀ s ∈ allDatesIn docs, s ≤ latestGo a docs)
    ∧ (latestGo a docs = a ∨ latestGo a docs ∈ allDatesIn docs) := by
  induction docs with
  | nil => intro a; exact ⟨le_refl a, by simp [allDatesIn], .inl rfl⟩
  | cons d rest ih =>
    intro a
    by_cases hemp : ((d.sections.map Prod.fst).filter isDateShaped).isEmpty
    · have hdates : (d.sections.map Prod.fst).filter isDateShaped = [] :=
        List.isEmpty_iff.1 hemp
      have hstep : latestGo a (d :: rest) = latestGo a rest := by
        conv_lhs => rw [latestGo]
        simp [hemp]
      obtain ⟨h1, h2, h3⟩ := ih a
      rw [hstep]
      refine ⟨h1, ?_, ?_⟩
      · intro s hs
        rw [allDatesIn_cons, hdates, List.nil_append] at hs
        exact h2 s hs
      · rcases h3 with h | h
        · exact .inl h
        · refine .inr ?_
          rw [allDatesIn_cons, hdates, List.nil_append]
          exact h
    · have hstep : latestGo a (d :: rest)
          = latestGo
            (strMaxAcc a (((d.sections.map Prod.fst).filter isDateShaped).foldl strMaxAcc ""))
            rest := by
        conv_lhs => rw [latestGo]
        simp [hemp]
      obtain ⟨h1, h2, h3⟩ :=
        ih (strMaxAcc a (((d.sections.map Prod.fst).filter isDateShaped).foldl strMaxAcc ""))
      obtain ⟨g1, g2, g3⟩ :=
        foldl_strMaxAcc_spec ((d.sections.map Prod.fst).filter isDateShaped) ""
      rw [hstep]
      refine ⟨le_trans (le_strMaxAcc_left _ _) h1, ?_, ?_⟩
      · intro s hs
        rw [allDatesIn_cons] at hs
        rcases List.mem_append.1 hs with h | h
        · exact le_trans (le_trans (g2 s h) (le_strMaxAcc_right _ _)) h1
        · exact h2 s h
      · rcases h3 with h | h
        · rcases strMaxAcc_eq_or a
              (((d.sections.map Prod.fst).filter isDateShaped).foldl strMaxAcc "") with hab | hab
          · exact .inl (h.trans hab)
          · rcases g3 with g | g
            · have hae : strMaxAcc a
                  (((d.sections.map Prod.fst).filter isDateShaped).foldl strMaxAcc "") = a := by
                rw [g]
                exact strMaxAcc_empty a
              exact .inl (h.trans hae)
            · refine .inr ?_
              rw [allDatesIn_cons]
              refine List.mem_append_left _ ?_
              rw [h, hab]
              exact g
        · refine .inr ?_
          rw [allDatesIn_cons]
          exact List.mem_append_right _ h

/-- C8: the "last updated" value is an upper bound of every regex-shaped
date in every persisted document's headings, is itself one of those dates
whenever any exists, and is the empty string when none exists anywhere —
that is, it is the lexicographic maximum of all heading dates. -/
theorem claim_c8 (docs : List Doc) :
    (allDatesIn docs = [] → get_latest_update_date docs = "")
    ∧ (∀ s ∈ allDatesIn docs, s ≤ get_latest_update_date docs)
    ∧ (allDatesIn docs ≠ [] → get_latest_update_date docs ∈ allDatesIn docs) := by
  obtain ⟨h1, h2, h3⟩ := latestGo_spec docs ""
  refine ⟨?_, h2, ?_⟩
  · intro hemp
    rcases h3 with h | h
    · exact h
    · rw [hemp] at h
      exact absurd h (List.not_mem_nil _)
  · intro hne
    rcases h3 with h | h
    · obtain ⟨s₀, hs₀⟩ := List.exists_mem_of_ne_nil (allDatesIn docs) hne
      have hle := h2 s₀ hs₀
      rw [h] at hle
      rcases lt_or_eq_of_le hle with hlt | heq
      · exact absurd hlt (str_not_lt_empty s₀)
      · have hsh := allDatesIn_shaped docs s₀ hs₀
        rw [heq] at hsh
        exact absurd hsh (by decide)
    · exact h

/-- Witness for C8 on a concrete two-document directory. -/
theorem claim_c8_witness :
    "2024-01-05" ≤ get_latest_update_date
      [⟨"T", [("2024-01-05", "x"), ("2024-02-03", "y")]⟩, ⟨"U", [("2024-01-20", "w")]⟩]
    ∧ get_latest_update_date
        [⟨"T", [("2024-01-05", "x"), ("2024-02-03", "y")]⟩, ⟨"U", [("2024-01-20", "w")]⟩]
      ∈ allDatesIn
        [⟨"T", [("2024-01-05", "x"), ("2024-02-03", "y")]⟩, ⟨"U", [("2024-01-20", "w")]⟩] :=
  ⟨(claim_c8 _).2.1 "2024-01-05" (by decide), (claim_c8 _).2.2 (by decide)⟩

/-! ## C1: idempotence of the whole pipeline

The key facts: the per-date loop only appends sections; after a topic is
processed every segment key is recorded in its document; recorded dates
only grow across threads; and a topic all of whose segment keys are
already recorded leaves the store untouched.  Since segment keys come
from `extract_date_from_text`, they contain no whitespace, so the
`.strip()` in `extract_existing_dates` leaves them unchanged. -/

/-- The heading dates of an optional document. -/
def datesOptOf : Option Doc → List String
  | none => []
  | some d => d.sections.map Prod.fst

/-- The stripped recorded dates at a store path. -/
def datesAt (store : List (String × Doc)) (p : String) : List String :=
  (datesOptOf (lookupStore store p)).map trimL

lemma extract_existing_dates_eq (doc : Option Doc) :
    extract_existing_dates doc = (datesOptOf doc).map trimL := by
  cases doc <;> simp [extract_existing_dates, datesOptOf]

lemma datesOptOf_mergeSection (doc : Option Doc) (title date summary : String) :
    datesOptOf (some (mergeSection doc title date summary))
      = datesOptOf doc ++ [date] := by
  cases doc <;> simp [mergeSection, datesOptOf]

/-! ### Date keys contain no whitespace -/

lemma isPyWS_digitCharM (k : Nat) : isPyWS (digitCharM k) = false := by
  have h : k % 10 < 10 := Nat.mod_lt _ (by omega)
  unfold digitCharM
  set r := k % 10 with hr
  interval_cases r <;> decide

lemma natDigits_noWS : ∀ (fuel n : Nat), ∀ c ∈ natDigits fuel n, isPyWS c = false := by
  intro fuel
  induction fuel with
  | zero => simp [natDigits]
  | succ f ih =>
    intro n c hc
    rw [natDigits] at hc
    split at hc
    · simp only [List.mem_singleton] at hc
      subst hc
      exact isPyWS_digitCharM n
    · rcases List.mem_append.1 hc with h | h
      · exact ih _ c h
      · simp only [List.mem_singleton] at h
        subst h
        exact isPyWS_digitCharM n

lemma natToStr_noWS (n : Nat) : ∀ c ∈ (natToStr n).data, isPyWS c = false :=
  fun c hc => natDigits_noWS (n + 1) n c hc

lemma strData_append (s t : String) : (s ++ t).data = s.data ++ t.data := rfl

lemma pad4_noWS (n : Nat) : ∀ c ∈ (pad4 n).data, isPyWS c = false := by
  intro c hc
  unfold pad4 at hc
  split at hc
  · rw [strData_append] at hc
    rcases List.mem_append.1 hc with h | h
    · rw [show ("000" : String).data = ['0', '0', '0'] from rfl] at h
      fin_cases h <;> decide
    · exact natToStr_noWS n c h
  · split at hc
    · rw [strData_append] at hc
      rcases List.mem_append.1 hc with h | h
      · rw [show ("00" : String).data = ['0', '0'] from rfl] at h
        fin_cases h <;> decide
      · exact natToStr_noWS n c h
    · split at hc
      · rw [strData_append] at hc
        rcases List.mem_append.1 hc with h | h
        · rw [show ("0" : String).data = ['0'] from rfl] at h
          fin_cases h <;> decide
        · exact natToStr_noWS n c h
      · exact natToStr_noWS n c hc

lemma pad2_noWS (n : Nat) : ∀ c ∈ (pad2 n).data, isPyWS c = false := by
  intro c hc
  unfold pad2 at hc
  split at hc
  · rw [strData_append] at hc
    rcases List.mem_append.1 hc with h | h
    · rw [show ("0" : String).data = ['0'] from rfl] at h
      fin_cases h <;> decide
    · exact natToStr_noWS n c h
  · exact natToStr_noWS n c hc

lemma fmtDate_noWS (y m d : Nat) : ∀ c ∈ (fmtDate y m d).data, isPyWS c = false := by
  intro c hc
  unfold fmtDate at hc
  rw [strData_append, strData_append, strData_append, strData_append] at hc
  rcases List.mem_append.1 hc with h | h
  · rcases List.mem_append.1 h with h | h
    · rcases List.mem_append.1 h with h | h
      · rcases List.mem_append.1 h with h | h
        · exact pad4_noWS y c h
        · rw [show ("-" : String).data = ['-'] from rfl] at h
          fin_cases h <;> decide
      · exact pad2_noWS m c h
    · rw [show ("-" : String).data = ['-'] from rfl] at h
      fin_cases h <;> decide
  · exact pad2_noWS d c h

lemma trimList_of_noWS (l : List Char) (h : ∀ c ∈ l, isPyWS c = false) :
    trimList l = l := by
  have hdrop : ∀ (l2 : List Char), (∀ c ∈ l2, isPyWS c = false) →
      l2.dropWhile isPyWS = l2 := by
    intro l2 h2
    cases l2 with
    | nil => rfl
    | cons c t => simp [List.dropWhile_cons, h2 c (List.mem_cons_self c t)]
  unfold trimList
  rw [hdrop l h, hdrop l.reverse (fun c hc => h c (List.mem_reverse.1 hc)),
    List.reverse_reverse]

lemma trimL_fmtDate (y m d : Nat) : trimL (fmtDate y m d) = fmtDate y m d := by
  unfold trimL
  exact congrArg String.mk (trimList_of_noWS _ (fmtDate_noWS y m d))

/-! ### Segment keys are extractor outputs, hence strip-fixed -/

lemma extract_shape (t s : String) (h : extract_date_from_text t = some s) :
    ∃ y m d, s = fmtDate y m d := by
  unfold extract_date_from_text at h
  cases hs : searchDate t.data with
  | none => rw [hs] at h; exact absurd h (by simp)
  | some r =>
    obtain ⟨y, m, d⟩ := r
    rw [hs] at h
    exact ⟨y, m, d, (Option.some.inj h).symm⟩

lemma updateCursor_some_shape (cur : Option String) (m : Message) (d : String)
    (h : updateCursor cur m = some d) :
    cur = some d ∨ ∃ y mo dd, d = fmtDate y mo dd := by
  unfold updateCursor at h
  split at h
  · cases hx : extract_date_from_text m.text with
    | none => rw [hx] at h; exact .inl h
    | some s =>
      rw [hx] at h
      obtain ⟨y, mo, dd, hfmt⟩ := extract_shape m.text s hx
      exact .inr ⟨y, mo, dd, (Option.some.inj h) ▸ hfmt⟩
  · exact .inl h

lemma addToGroup_keys (g : List (String × List Message)) (d : String) (m : Message)
    (k : String) (l : List Message) (h : (k, l) ∈ addToGroup g d m) :
    k = d ∨ ∃ l2, (k, l2) ∈ g := by
  induction g with
  | nil =>
    simp only [addToGroup, List.mem_singleton] at h
    exact .inl (congrArg Prod.fst h)
  | cons e rest ih =>
    obtain ⟨x, xl⟩ := e
    by_cases hx : x = d
    · simp only [addToGroup, if_pos hx] at h
      rcases List.mem_cons.1 h with h | h
      · injection h with h1 h2
        exact .inl (h1.trans hx)
      · exact .inr ⟨l, List.mem_cons_of_mem _ h⟩
    · simp only [addToGroup, if_neg hx] at h
      rcases List.mem_cons.1 h with h | h
      · injection h with h1 h2
        exact .inr ⟨xl, by rw [h1]; exact List.mem_cons_self _ _⟩
      · rcases ih h with h2 | ⟨l2, h2⟩
        · exact .inl h2
        · exact .inr ⟨l2, List.mem_cons_of_mem _ h2⟩

lemma segmentAux_keys : ∀ (msgs : List Message) (cur : Option String)
    (g : List (String × List Message)),
    (∀ k l, (k, l) ∈ g → trimL k = k) →
    (∀ s, cur = some s → trimL s = s) →
    ∀ k l, (k, l) ∈ segmentAux cur g msgs → trimL k = k
  | [], cur, g, hg, _, k, l, hk => hg k l hk
  | m :: rest, cur, g, hg, hcur, k, l, hk => by
    cases hc : updateCursor cur m with
    | none =>
      have hstep : segmentAux cur g (m :: rest) = segmentAux none g rest := by
        conv_lhs => rw [segmentAux]
        rw [hc]
      rw [hstep] at hk
      exact segmentAux_keys rest none g hg (fun s hs => by cases hs) k l hk
    | some d =>
      have hstep : segmentAux cur g (m :: rest)
          = segmentAux (some d) (addToGroup g d m) rest := by
        conv_lhs => rw [segmentAux]
        rw [hc]
      rw [hstep] at hk
      have hd : trimL d = d := by
        rcases updateCursor_some_shape cur m d hc with h | ⟨y, mo, dd, hfmt⟩
        · exact hcur d h
        · rw [hfmt]
          exact trimL_fmtDate y mo dd
      refine segmentAux_keys rest (some d) (addToGroup g d m) ?_ ?_ k l hk
      · intro k2 l2 h2
        rcases addToGroup_keys g d m k2 l2 h2 with h3 | ⟨l3, h3⟩
        · rw [h3]; exact hd
        · exact hg k2 l3 h3
      · intro s hs
        rw [← Option.some.inj hs]
        exact hd

lemma mem_insertSorted (p q : String × List Message) (l : List (String × List Message))
    (h : q ∈ insertSorted p l) : q = p ∨ q ∈ l := by
  induction l with
  | nil => simp only [insertSorted, List.mem_singleton] at h; exact .inl h
  | cons e rest ih =>
    unfold insertSorted at h
    split at h
    · rcases List.mem_cons.1 h with h | h
      · exact .inl h
      · exact .inr h
    · rcases List.mem_cons.1 h with h | h
      · exact .inr (by rw [h]; exact List.mem_cons_self _ _)
      · rcases ih h with h2 | h2
        · exact .inl h2
        · exact .inr (List.mem_cons_of_mem _ h2)

lemma mem_sortGroups (q : String × List Message) (l : List (String × List Message))
    (h : q ∈ sortGroups l) : q ∈ l := by
  induction l with
  | nil => simpa [sortGroups] using h
  | cons p rest ih =>
    have hstep : sortGroups (p :: rest) = insertSorted p (sortGroups rest) := rfl
    rw [hstep] at h
    rcases mem_insertSorted p q (sortGroups rest) h with h2 | h2
    · rw [h2]; exact List.mem_cons_self _ _
    · exact List.mem_cons_of_mem _ (ih h2)

/-- Every key of the segmenter's (sorted) grouping is fixed by strip. -/
lemma sortGroups_segment_keys (msgs : List Message) (k : String) (l : List Message)
    (h : (k, l) ∈ sortGroups (segmentMessages msgs)) : trimL k = k := by
  refine segmentAux_keys msgs none [] ?_ ?_ k l (mem_sortGroups _ _ h)
  · intro k2 l2 h2
    exact absurd h2 (List.not_mem_nil _)
  · intro s hs
    cases hs

/-! ### The per-date loop: monotone append, key coverage, all-skip -/

lemma processDates_mono (oracle : String → CallOutcome) (ex : List String)
    (title : String) : ∀ (groups : List (String × List Message)) (d0 : Doc),
    ∃ tail, processDates oracle ex title (some d0) groups
      = some ⟨d0.title, d0.sections ++ tail⟩
  | [], d0 => ⟨[], by simp [processDates]⟩
  | (date, grp) :: rest, d0 => by
    by_cases hd : date ∈ ex
    · obtain ⟨tail, htail⟩ := processDates_mono oracle ex title rest d0
      refine ⟨tail, ?_⟩
      rw [processDates, if_pos hd]
      exact htail
    · obtain ⟨tail, htail⟩ := processDates_mono oracle ex title rest
        ⟨d0.title, d0.sections ++
          [(date, summarize_with_gemini oracle (formatTranscript grp))]⟩
      refine ⟨[(date, summarize_with_gemini oracle (formatTranscript grp))] ++ tail, ?_⟩
      rw [processDates, if_neg hd]
      simp only [mergeSection]
      rw [htail]
      simp [List.append_assoc]

lemma processDates_covers (oracle : String → CallOutcome) (ex : List String)
    (title : String) : ∀ (groups : List (String × List Message)) (doc : Option Doc),
    (∀ x ∈ ex, x ∈ (datesOptOf doc).map trimL) →
    ∀ k g, (k, g) ∈ groups → trimL k = k →
    ∃ d2, processDates oracle ex title doc groups = some d2
      ∧ k ∈ (d2.sections.map Prod.fst).map trimL
  | [], doc, hsub, k, g, hk, _ => absurd hk (List.not_mem_nil _)
  | (date, grp) :: rest, doc, hsub, k, g, hk, htrim => by
    by_cases hd : date ∈ ex
    · rcases List.mem_cons.1 hk with hh | hh
      · -- the target is the skipped head: it is already recorded
        have hkd : k = date := congrArg Prod.fst hh
        have hkex : k ∈ (datesOptOf doc).map trimL := hsub k (hkd ▸ hd)
        cases hdoc : doc with
        | none =>
          rw [hdoc] at hkex
          simp [datesOptOf] at hkex
        | some d0 =>
          obtain ⟨tail, htail⟩ := processDates_mono oracle ex title rest d0
          refine ⟨⟨d0.title, d0.sections ++ tail⟩, ?_, ?_⟩
          · rw [processDates, if_pos hd]
            exact htail
          · rw [hdoc] at hkex
            simp only [datesOptOf] at hkex
            simp only [List.map_append, List.map_map]
            exact List.mem_append_left _ (by simpa [List.map_map] using hkex)
      · obtain ⟨d2, hd2, hk2⟩ := processDates_covers oracle ex title rest doc hsub
          k g hh htrim
        refine ⟨d2, ?_, hk2⟩
        rw [processDates, if_pos hd]
        exact hd2
    · -- the head is appended before the rest is processed
      have hmerge : datesOptOf (some (mergeSection doc title date
          (summarize_with_gemini oracle (formatTranscript grp))))
          = datesOptOf doc ++ [date] := datesOptOf_mergeSection doc title date _
      have hsub2 : ∀ x ∈ ex, x ∈ (datesOptOf (some (mergeSection doc title date
          (summarize_with_gemini oracle (formatTranscript grp))))).map trimL := by
        intro x hx
        rw [hmerge, List.map_append]
        exact List.mem_append_left _ (hsub x hx)
      rcases List.mem_cons.1 hk with hh | hh
      · -- the target is the appended head
        have hkd : k = date := congrArg Prod.fst hh
        obtain ⟨tail, htail⟩ := processDates_mono oracle ex title rest
          (mergeSection doc title date
            (summarize_with_gemini oracle (formatTranscript grp)))
        refine ⟨⟨(mergeSection doc title date
            (summarize_with_gemini oracle (formatTranscript grp))).title,
          (mergeSection doc title date
            (summarize_with_gemini oracle (formatTranscript grp))).sections ++ tail⟩,
          ?_, ?_⟩
        · rw [processDates, if_neg hd]
          exact htail
        · have hmem : k ∈ ((mergeSection doc title date
              (summarize_with_gemini oracle (formatTranscript grp))).sections.map
                Prod.fst) := by
            have : (mergeSection doc title date
                (summarize_with_gemini oracle (formatTranscript grp))).sections.map
                  Prod.fst = datesOptOf doc ++ [date] := by
              rw [← datesOptOf_mergeSection doc title date
                (summarize_with_gemini oracle (formatTranscript grp))]
              rfl
            rw [this, hkd]
            exact List.mem_append_right _ (List.mem_singleton.2 rfl)
          simp only [List.map_append, List.map_map]
          refine List.mem_append_left _ ?_
          have : trimL k ∈ ((mergeSection doc title date
              (summarize_with_gemini oracle (formatTranscript grp))).sections.map
                Prod.fst).map trimL := List.mem_map_of_mem trimL hmem
          rw [htrim] at this
          simpa [List.map_map] using this
      · obtain ⟨d2, hd2, hk2⟩ := processDates_covers oracle ex title rest
          (some (mergeSection doc title date
            (summarize_with_gemini oracle (formatTranscript grp)))) hsub2 k g hh htrim
        refine ⟨d2, ?_, hk2⟩
        rw [processDates, if_neg hd]
        exact hd2

lemma processDates_skip_all (oracle : String → CallOutcome) (ex : List String)
    (title : String) : ∀ (groups : List (String × List Message)) (doc : Option Doc),
    (∀ k g, (k, g) ∈ groups → k ∈ ex) →
    processDates oracle ex title doc groups = doc
  | [], doc, _ => by simp [processDates]
  | (date, grp) :: rest, doc, hall => by
    have hd : date ∈ ex := hall date grp (List.mem_cons_self _ _)
    rw [processDates, if_pos hd]
    exact processDates_skip_all oracle ex title rest doc
      (fun k g hk => hall k g (List.mem_cons_of_mem _ hk))

/-! ### Thread-level and pipeline-level lemmas -/

lemma runThread_ok_mono (oracle : String → CallOutcome) (store : List (String × Doc))
    (th : Thread) (s : List (String × Doc)) (hrun : runThread oracle store th = .ok s)
    (p : String) (x : String) (hx : x ∈ datesAt store p) : x ∈ datesAt s p := by
  by_cases hscope : endsWithL (trimL th.title) FILTER_SUFFIX = true
  · simp only [runThread, hscope, if_true] at hrun
    cases hr : readMessages th.nodes with
    | error e => rw [hr] at hrun; exact absurd hrun (by simp)
    | ok msgs =>
      rw [hr] at hrun
      have hrun2 : (match processTopic oracle
            (lookupStore store (docPath (trimL th.title))) (trimL th.title) msgs with
          | none => Except.ok store
          | some d => Except.ok (updateStore store (docPath (trimL th.title)) d))
          = Except.ok s := hrun
      cases hpt : processTopic oracle (lookupStore store (docPath (trimL th.title)))
          (trimL th.title) msgs with
      | none =>
        rw [hpt] at hrun2
        rw [← Except.ok.inj hrun2]
        exact hx
      | some d2 =>
        rw [hpt] at hrun2
        rw [← Except.ok.inj hrun2]
        by_cases hp : p = docPath (trimL th.title)
        · subst hp
          unfold datesAt
          rw [lookupStore_updateStore_self]
          cases hdoc : lookupStore store (docPath (trimL th.title)) with
          | none =>
            unfold datesAt at hx
            rw [hdoc] at hx
            simp [datesOptOf] at hx
          | some d0 =>
            rw [hdoc] at hpt
            have hpt2 : processDates oracle (extract_existing_dates (some d0))
                (trimL th.title) (some d0) (sortGroups (segmentMessages msgs))
                = some d2 := hpt
            obtain ⟨tail, htail⟩ := processDates_mono oracle
              (extract_existing_dates (some d0)) (trimL th.title)
              (sortGroups (segmentMessages msgs)) d0
            have hd2 : d2 = ⟨d0.title, d0.sections ++ tail⟩ :=
              Option.some.inj (hpt2.symm.trans htail)
            rw [hd2]
            unfold datesAt at hx
            rw [hdoc] at hx
            simp only [datesOptOf] at hx ⊢
            simp only [List.map_append]
            exact List.mem_append_left _ hx
        · unfold datesAt
          rw [lookupStore_updateStore_other store _ p d2 hp]
          exact hx
  · have hok : (Except.ok store : Except Unit (List (String × Doc))) = Except.ok s := by
      simpa [runThread, hscope] using hrun
    rw [← Except.ok.inj hok]
    exact hx

lemma runThread_ok_covers (oracle : String → CallOutcome) (store : List (String × Doc))
    (th : Thread) (s : List (String × Doc)) (msgs : List Message)
    (hscope : endsWithL (trimL th.title) FILTER_SUFFIX = true)
    (hr : readMessages th.nodes = .ok msgs)
    (hrun : runThread oracle store th = .ok s) :
    ∀ k g, (k, g) ∈ sortGroups (segmentMessages msgs) →
      k ∈ datesAt s (docPath (trimL th.title)) := by
  intro k g hk
  have htrim : trimL k = k := sortGroups_segment_keys msgs k g hk
  have hsub : ∀ x ∈ extract_existing_dates
      (lookupStore store (docPath (trimL th.title))),
      x ∈ (datesOptOf (lookupStore store (docPath (trimL th.title)))).map trimL := by
    intro x hx
    rwa [extract_existing_dates_eq] at hx
  obtain ⟨d2, hd2, hk2⟩ := processDates_covers oracle
    (extract_existing_dates (lookupStore store (docPath (trimL th.title))))
    (trimL th.title) (sortGroups (segmentMessages msgs))
    (lookupStore store (docPath (trimL th.title))) hsub k g hk htrim
  have hpt : processTopic oracle (lookupStore store (docPath (trimL th.title)))
      (trimL th.title) msgs = some d2 := hd2
  simp only [runThread, hscope, if_true] at hrun
  rw [hr] at hrun
  have hrun2 : (match processTopic oracle
        (lookupStore store (docPath (trimL th.title))) (trimL th.title) msgs with
      | none => Except.ok store
      | some d => Except.ok (updateStore store (docPath (trimL th.title)) d))
      = Except.ok s := hrun
  rw [hpt] at hrun2
  rw [← Except.ok.inj hrun2]
  unfold datesAt
  rw [lookupStore_updateStore_self]
  simpa [datesOptOf] using hk2

lemma runThread_stable (oracle : String → CallOutcome) (store : List (String × Doc))
    (th : Thread)
    (hcov : endsWithL (trimL th.title) FILTER_SUFFIX = true →
      ∀ msgs, readMessages th.nodes = .ok msgs →
      ∀ k g, (k, g) ∈ sortGroups (segmentMessages msgs) →
        k ∈ datesAt store (docPath (trimL th.title)))
    (hread : endsWithL (trimL th.title) FILTER_SUFFIX = true →
      ∃ msgs, readMessages th.nodes = .ok msgs) :
    runThread oracle store th = .ok store := by
  by_cases hscope : endsWithL (trimL th.title) FILTER_SUFFIX = true
  · obtain ⟨msgs, hr⟩ := hread hscope
    have hall : ∀ k g, (k, g) ∈ sortGroups (segmentMessages msgs) →
        k ∈ extract_existing_dates (lookupStore store (docPath (trimL th.title))) := by
      intro k g hk
      rw [extract_existing_dates_eq]
      exact hcov hscope msgs hr k g hk
    have hpt : processTopic oracle (lookupStore store (docPath (trimL th.title)))
        (trimL th.title) msgs = lookupStore store (docPath (trimL th.title)) :=
      processDates_skip_all oracle _ _ _ _ hall
    simp only [runThread, hscope, if_true]
    rw [hr]
    show (match processTopic oracle
          (lookupStore store (docPath (trimL th.title))) (trimL th.title) msgs with
        | none => Except.ok store
        | some d => Except.ok (updateStore store (docPath (trimL th.title)) d))
        = Except.ok store
    rw [hpt]
    cases hdoc : lookupStore store (docPath (trimL th.title)) with
    | none => rfl
    | some d0 =>
      show Except.ok (updateStore store (docPath (trimL th.title)) d0) = Except.ok store
      rw [updateStore_same store _ d0 hdoc]
  · simp [runThread, hscope]

lemma runPipeline_ok_mono (oracle : String → CallOutcome) :
    ∀ (threads : List Thread) (store s : List (String × Doc)),
    runPipeline oracle store threads = .ok s →
    ∀ p x, x ∈ datesAt store p → x ∈ datesAt s p
  | [], store, s, h, p, x, hx => by
    have h2 : Except.ok store = Except.ok s := h
    rw [← Except.ok.inj h2]
    exact hx
  | th :: rest, store, s, h, p, x, hx => by
    have h2 : (match runThread oracle store th with
        | .error e => Except.error e
        | .ok s2 => runPipeline oracle s2 rest) = .ok s := h
    cases hrt : runThread oracle store th with
    | error e => rw [hrt] at h2; exact absurd h2 (by simp)
    | ok s0 =>
      rw [hrt] at h2
      exact runPipeline_ok_mono oracle rest s0 s h2 p x
        (runThread_ok_mono oracle store th s0 hrt p x hx)

lemma runPipeline_stable_all (oracle : String → CallOutcome) :
    ∀ (threads : List Thread) (store s₁ : List (String × Doc)),
    runPipeline oracle store threads = .ok s₁ →
    ∀ th ∈ threads, runThread oracle s₁ th = .ok s₁
  | [], store, s₁, h, th, hth => absurd hth (List.not_mem_nil _)
  | th0 :: rest, store, s₁, h, th, hth => by
    have h2 : (match runThread oracle store th0 with
        | .error e => Except.error e
        | .ok s2 => runPipeline oracle s2 rest) = .ok s₁ := h
    cases hrt : runThread oracle store th0 with
    | error e => rw [hrt] at h2; exact absurd h2 (by simp)
    | ok s0 =>
      rw [hrt] at h2
      rcases List.mem_cons.1 hth with hh | hh
      · subst hh
        apply runThread_stable
        · intro hscope msgs hr k g hk
          exact runPipeline_ok_mono oracle rest s0 s₁ h2 _ k
            (runThread_ok_covers oracle store th s0 msgs hscope hr hrt k g hk)
        · intro hscope
          cases hr : readMessages th.nodes with
          | ok msgs => exact ⟨msgs, rfl⟩
          | error e =>
            have herr : runThread oracle store th = .error e := by
              simp [runThread, hscope, hr]
            exact absurd (herr.symm.trans hrt) (by simp)
      · exact runPipeline_stable_all oracle rest s0 s₁ h2 th hh

lemma runPipeline_of_all_stable (oracle : String → CallOutcome) :
    ∀ (threads : List Thread) (s : List (String × Doc)),
    (∀ th ∈ threads, runThread oracle s th = .ok s) →
    runPipeline oracle s threads = .ok s
  | [], s, _ => rfl
  | th :: rest, s, hall => by
    show (match runThread oracle s th with
        | .error e => Except.error e
        | .ok s2 => runPipeline oracle s2 rest) = .ok s
    rw [hall th (List.mem_cons_self _ _)]
    exact runPipeline_of_all_stable oracle rest s
      (fun t ht => hall t (List.mem_cons_of_mem _ ht))

/-- C1: running the whole pipeline a second time on the same threads,
with the same external-call behavior, returns the store of the first run
unchanged — every persisted per-topic document is byte-identical to its
state after the first run, because every date already recorded in a
document's headings is skipped and nothing is appended or rewritten. -/
theorem claim_c1 (oracle : String → CallOutcome) (store s₁ : List (String × Doc))
    (threads : List Thread)
    (h : runPipeline oracle store threads = .ok s₁) :
    runPipeline oracle s₁ threads = .ok s₁ :=
  runPipeline_of_all_stable oracle threads s₁
    (runPipeline_stable_all oracle threads store s₁ h)

/-- Witness for C1: one in-scope thread carrying an assistant message
dated 2024-01-02, run from the empty store; the second run leaves the
resulting one-document store exactly as it was. -/
theorem claim_c1_witness :
    runPipeline (fun _ => CallOutcome.response (some "S"))
      [("output/A_米国株.html", ⟨"A_米国株", [("2024-01-02", "S")]⟩)]
      [⟨"A_米国株", [⟨some ⟨some "assistant", some [PartVal.str "2024-01-02 ok"]⟩⟩]⟩]
      = .ok [("output/A_米国株.html", ⟨"A_米国株", [("2024-01-02", "S")]⟩)] :=
  claim_c1 (fun _ => CallOutcome.response (some "S")) []
    [("output/A_米国株.html", ⟨"A_米国株", [("2024-01-02", "S")]⟩)]
    [⟨"A_米国株", [⟨some ⟨some "assistant", some [PartVal.str "2024-01-02 ok"]⟩⟩]⟩]
    (by rfl)

end StockReport
